import Mathlib

/-!
Verification of the RAG subsystem of the `rules-engine` repository
(`ai-poc-python`): intent classification (`rag/intent_classifier.py`),
knowledge retrieval (`rag/dsl_retriever.py`), prompt composition
(`rag/prompt_retriever.py`) and the static catalog
(`rag/intent_documents.py`, `config/settings.py`).

Python floats are modelled by exact rationals (`ℚ`); Python's `round(x, 3)`
(round-half-to-even) is modelled exactly by `pyRound3`.  Exceptions are
modelled by `Except`/`Option`; the ChromaDB query result is modelled by the
list of neighbor records (metadata + document) and the parallel list of
distances exactly as the code consumes them.
-/

namespace RulesEngine

/-- Round-half-to-even on a rational, as Python's builtin `round` behaves on
exact values: nearest integer, ties to the even one. -/
def roundHalfEven (x : ℚ) : ℤ :=
  if x - (⌊x⌋ : ℚ) < 1/2 then ⌊x⌋
  else if 1/2 < x - (⌊x⌋ : ℚ) then ⌊x⌋ + 1
  else if ⌊x⌋ % 2 = 0 then ⌊x⌋ else ⌊x⌋ + 1

/-- Python's `round(x, 3)` on an exact value: round half to even at the third
decimal place. -/
def pyRound3 (x : ℚ) : ℚ := (roundHalfEven (x * 1000) : ℚ) / 1000

/-! ## Intent classifier (`rag/intent_classifier.py`) -/

/-- One neighbor returned by the ChromaDB query: the metadata's `intent_id`
and the stored example document (`results["metadatas"][0][i]` together with
`results["documents"][0][i]`). -/
structure Neighbor where
  intentId : String
  document : String
  deriving Repr, DecidableEq

/-- The per-intent accumulator built by `classify`'s voting loop
(`intent_scores[intent_id]`): running similarity total, neighbor count and
the supporting examples with rounded similarity. -/
structure Score where
  total : ℚ
  count : ℕ
  examples : List (String × ℚ)
  deriving Repr, DecidableEq

/-- `similarity = 1.0 / (1.0 + distance)` (intent_classifier.py line 144). -/
def simOf (d : ℚ) : ℚ := 1 / (1 + d)

/-- One step of the voting loop: add similarity `s` for document `doc` to the
group of `id` in the insertion-ordered association list `scores`, creating the
group if absent — Python dict update at lines 146-158. -/
def updateScores (scores : List (String × Score)) (id : String) (doc : String)
    (s : ℚ) : List (String × Score) :=
  match scores with
  | [] => [(id, ⟨s, 1, [(doc, pyRound3 s)]⟩)]
  | (k, sc) :: rest =>
    if k = id then
      (k, ⟨sc.total + s, sc.count + 1, sc.examples ++ [(doc, pyRound3 s)]⟩) :: rest
    else
      (k, sc) :: updateScores rest id doc s

/-- The voting loop of `classify` (lines 141-158): walk the neighbors in
order; the `i`-th neighbor gets `distances[i] if i < len(distances) else 1.0`,
modelled by taking the head of the remaining distance list with default `1`. -/
def buildScores : List Neighbor → List ℚ → List (String × Score) →
    List (String × Score)
  | [], _, acc => acc
  | n :: ns, ds, acc =>
    buildScores ns ds.tail (updateScores acc n.intentId n.document (simOf (ds.headD 1)))

/-- Pair each record with its distance the way both result loops read them:
positional, defaulting to `1` past the end of the distance list. -/
def pairDists {α : Type} : List α → List ℚ → List (α × ℚ)
  | [], _ => []
  | n :: ns, ds => (n, ds.headD 1) :: pairDists ns ds.tail

/-- Specification view: total similarity (`Σ 1/(1+d)`) of the neighbors whose
metadata carries intent `id`. -/
def groupTotal : List (Neighbor × ℚ) → String → ℚ
  | [], _ => 0
  | (n, d) :: ps, id =>
    (if n.intentId = id then simOf d else 0) + groupTotal ps id

/-- Specification view: how many neighbors carry intent `id`. -/
def groupCount : List (Neighbor × ℚ) → String → ℕ
  | [], _ => 0
  | (n, _) :: ps, id =>
    (if n.intentId = id then 1 else 0) + groupCount ps id

/-- Python's `max(keys, key=...)` over a nonempty association list: fold
keeping the current element unless a strictly greater total appears
(lines 161-164). -/
def maxFrom (x : String × Score) : List (String × Score) → String × Score
  | [] => x
  | y :: ys => maxFrom (if x.2.total < y.2.total then y else x) ys

def pickBest : List (String × Score) → Option (String × Score)
  | [] => none
  | x :: xs => some (maxFrom x xs)

/-- An intent definition of the catalog (`rag/intent_documents.py`). -/
structure IntentDefinition where
  id : String
  name : String
  examples : List String
  deriving Repr, DecidableEq

/-- `INTENT_DEFINITIONS` (intent_documents.py lines 11-151), ids, names and
example counts as in the source; example texts reproduced verbatim. -/
def INTENT_DEFINITIONS : List IntentDefinition :=
  [ ⟨"create_event", "建立賽事",
      ["我想建立一個新賽事", "幫我建立馬拉松活動", "新增一個路跑活動",
       "建立2026大湖馬拉松", "我要辦一場比賽", "建立新的報名活動",
       "幫我建立一個鐵人三項賽事", "新增賽事", "create new event",
       "我想辦一個健走活動"]⟩,
    ⟨"update_event", "修改賽事",
      ["修改報名費", "改一下價格", "全馬改成1500元", "調整報名費用",
       "加一個早鳥優惠", "新增團報折扣", "設定9折優惠", "加優惠",
       "加一個欄位", "新增電話欄位", "修改報名表單", "加上緊急聯絡人",
       "加入年齡限制", "限制18歲以上才能報名", "設定報名條件",
       "修改這個賽事", "更新賽事設定", "編輯活動內容", "改一下設定"]⟩,
    ⟨"search_event", "搜尋賽事",
      ["列出所有賽事", "搜尋馬拉松", "有哪些賽事", "查詢賽事",
       "找一下路跑活動", "顯示所有活動", "看看有什麼賽事", "list events",
       "搜尋", "查一下有哪些活動"]⟩,
    ⟨"get_event", "查看賽事詳情",
      ["查看馬拉松詳情", "顯示這個賽事的內容", "看一下大湖馬拉松",
       "這個賽事的規則是什麼", "詳細資訊", "查看DSL", "顯示完整設定",
       "看一下這個賽事"]⟩,
    ⟨"delete_event", "刪除賽事",
      ["刪除這個賽事", "移除馬拉松活動", "刪掉這個活動", "取消這個賽事",
       "刪除", "移除", "不要這個賽事了"]⟩,
    ⟨"calculate_price", "計算價格",
      ["算一下報名費", "計算價格", "全馬報名要多少錢", "預覽費用",
       "早鳥價多少", "團報5人的價格", "幫我算價格", "這樣報名要多少"]⟩,
    ⟨"preview_event", "預覽報名頁面",
      ["預覽報名頁面", "測試報名", "看一下報名表", "預覽表單", "測試一下",
       "打開報名頁面", "我想看報名畫面", "preview"]⟩,
    ⟨"general", "一般對話",
      ["你好", "你是誰", "幫助", "謝謝", "可以做什麼", "DSL是什麼",
       "怎麼使用", "說明一下"]⟩ ]

/-- `INTENT_BY_ID.get(id, {}).get("name", id)` (line 168 with line 172):
display name of an intent, falling back to the id itself. -/
def intentName (id : String) : String :=
  ((INTENT_DEFINITIONS.find? (fun it => it.id = id)).map (fun it => it.name)).getD id

/-- The classification result returned by `classify`. -/
structure ClassificationResult where
  intentId : String
  intentName : String
  confidence : ℚ
  similarExamples : List (String × ℚ)
  deriving Repr, DecidableEq

/-- `_default_result` (lines 177-183). -/
def defaultResult : ClassificationResult :=
  ⟨"general", "一般對話", 0, []⟩

/-- `IntentClassifier.classify` (lines 114-175) after the index query: the
neighbors (metadata + document) and the distance list are the query's return
value; the embedding call and the ChromaDB round trip are the boundary. -/
def classify (neighbors : List Neighbor) (distances : List ℚ) :
    ClassificationResult :=
  match neighbors with
  | [] => defaultResult
  | _ :: _ =>
    let scores := buildScores neighbors distances []
    match pickBest scores with
    | none => defaultResult
    | some (id, sc) =>
      ⟨id, intentName id, pyRound3 (sc.total / (sc.count : ℚ)), sc.examples⟩

/-! ## DSL knowledge retriever (`rag/dsl_retriever.py`) -/

/-- One hit's metadata as stored in the `dsl_knowledge` collection: the
display title and the content locator (`module` + `variable`). -/
structure HitMeta where
  title : String
  module : String
  varName : String
  deriving Repr, DecidableEq

/-- One entry of `search`'s output: title, resolved content and rounded
similarity (dsl_retriever.py lines 161-166). -/
structure SearchResult where
  title : String
  content : String
  similarity : ℚ
  deriving Repr, DecidableEq

/-- A content loader: `_load_content(module, variable)` (lines 106-122)
returns the string or `None`; every exception is caught inside and turned
into `None`, so the loader is modelled as a total function into `Option`. -/
def Loader : Type := String → String → Option String

/-- The result loop of `DSLRetriever.search` (lines 148-168): per hit, the
positional distance (default `1.0` past the end of the distance list), the
similarity `1/(1+d)`, content resolution, and the truthiness test
`if content:` — `None` and the empty string are both dropped. -/
def searchLoop (loader : Loader) : List HitMeta → List ℚ → List SearchResult
  | [], _ => []
  | h :: hs, ds =>
    let rest := searchLoop loader hs ds.tail
    match loader h.module h.varName with
    | some c => if c = "" then rest else ⟨h.title, c, pyRound3 (simOf (ds.headD 1))⟩ :: rest
    | none => rest

/-- `DSLRetriever.search` (lines 124-168) after the index query: the hit
metadata list and the distance list are the query's return value; an empty
hit list returns `[]` (line 144-145). -/
def search (loader : Loader) (hits : List HitMeta) (distances : List ℚ) :
    List SearchResult :=
  searchLoop loader hits distances

/-- A loader post-composed with Python's truthiness test: a resolved empty
string becomes an absent value. -/
def truthyLoader (loader : Loader) : Loader :=
  fun m v =>
    match loader m v with
    | some s => if s = "" then none else some s
    | none => none

/-! ## Prompt retriever (`rag/prompt_retriever.py`) -/

/-- The prompt fragments imported at the top of prompt_retriever.py, one
constructor per module-level constant. -/
inductive Fragment where
  | base
  | createEvent
  | updateEvent
  | searchEvent
  | deleteEvent
  | calculatePrice
  | previewEvent
  | dslOverview
  | pricingRules
  | validationRules
  | formSchema
  | conditions
  deriving Repr, DecidableEq

/-- `PromptRetriever.INTENT_PROMPTS` (lines 29-38). -/
def INTENT_PROMPTS : List (String × List Fragment) :=
  [ ("create_event", [.createEvent]),
    ("update_event", [.updateEvent]),
    ("search_event", [.searchEvent]),
    ("get_event", [.searchEvent]),
    ("delete_event", [.deleteEvent]),
    ("calculate_price", [.calculatePrice]),
    ("preview_event", [.previewEvent]),
    ("general", []) ]

/-- `PromptRetriever.ALL_DSL_SPECS` (lines 41-47). -/
def ALL_DSL_SPECS : List Fragment :=
  [.dslOverview, .pricingRules, .validationRules, .formSchema, .conditions]

/-- `UPDATE_KEYWORDS` (intent_documents.py lines 157-174), in dict insertion
order. -/
def UPDATE_KEYWORDS : List (String × List String) :=
  [ ("pricing",
     ["價格", "費用", "報名費", "金額", "元", "塊", "錢",
      "price", "cost", "fee"]),
    ("discount",
     ["優惠", "折扣", "早鳥", "團報", "折", "減",
      "discount", "promotion", "coupon"]),
    ("form",
     ["欄位", "表單", "輸入", "填寫", "選項",
      "field", "form", "input"]),
    ("validation",
     ["驗證", "限制", "條件", "規則", "必填", "上限", "下限",
      "validation", "rule", "limit", "require"]) ]

/-- Python's `message.lower()`: case-fold each code point.  The keyword
tables and the example messages contain only CJK text and lower-case ASCII,
on which Python's full Unicode case folding agrees with per-code-point ASCII
folding. -/
def pyLower (s : String) : String := ⟨s.data.map Char.toLower⟩

/-- Contiguous-sublist test on code-point lists. -/
def listInfix (needle : List Char) : List Char → Bool
  | [] => needle.isEmpty
  | c :: rest => needle.isPrefixOf (c :: rest) || listInfix needle rest

/-- Python's `keyword in message_lower`: substring of code points. -/
def strContains (hay needle : String) : Bool :=
  listInfix needle.data hay.data

/-- Add to a Python set, modelled as an insertion-ordered duplicate-free
list: membership-preserving, order canonicalised to insertion order (the
source's `list(specs)` order is an unspecified set iteration order; every
claim about it is membership-only). -/
def setAdd (l : List Fragment) (f : Fragment) : List Fragment :=
  if f ∈ l then l else l ++ [f]

/-- `PromptRetriever._detect_update_specs` (lines 87-118): case-fold the
message, mark each keyword category whose first matching keyword occurs as a
substring, map matched categories to specs through a set, and fall back to
the overview fragment when nothing matched. -/
def detectUpdateSpecs (message : String) : List Fragment :=
  let m := pyLower message
  let matched := (UPDATE_KEYWORDS.filter
    (fun c => c.2.any (fun kw => strContains m kw))).map (fun c => c.1)
  let specs : List Fragment := []
  let specs := if "pricing" ∈ matched ∨ "discount" ∈ matched then
    setAdd (setAdd specs .pricingRules) .conditions else specs
  let specs := if "form" ∈ matched then setAdd specs .formSchema else specs
  let specs := if "validation" ∈ matched then
    setAdd (setAdd specs .validationRules) .conditions else specs
  if specs = [] then [.dslOverview] else specs

/-- `PromptRetriever._get_dsl_specs` (lines 72-85). -/
def getDslSpecs (intentId message : String) : List Fragment :=
  if intentId = "create_event" then ALL_DSL_SPECS
  else if intentId = "update_event" then detectUpdateSpecs message
  else []

/-- `PromptRetriever.compose` (lines 49-70) as the ordered fragment sequence
it joins with the fixed separator: base fragment, then the intent prompts
(`INTENT_PROMPTS.get(intent_id, [])`), then the DSL specs. -/
def composeFragments (intentId message : String) : List Fragment :=
  [Fragment.base] ++ ((INTENT_PROMPTS.lookup intentId).getD []) ++
    getDslSpecs intentId message

/-! ## Settings and embedder construction (`config/settings.py`,
`rag/intent_classifier.py` lines 20-23, `rag/dsl_retriever.py` lines 37-41) -/

/-- The field names declared on the pydantic `Settings` model
(config/settings.py lines 16-48): these are the only attributes a
`Settings` instance carries; reading any other attribute raises
`AttributeError` (pydantic-settings ignores undeclared environment
variables). -/
def settingsFieldNames : List String :=
  ["go_api_url", "anthropic_api_key", "model_name", "chroma_host", "chroma_port"]

/-- The Python exceptions construction can raise: `AttributeError` from
reading an undeclared settings attribute, `ValueError` from the explicit
credential check. -/
inductive PyError where
  | attributeError
  | valueError
  deriving Repr, DecidableEq

/-- Reading `settings.google_api_key` given the process environment: the
attribute exists only if declared on the model, in which case pydantic
would have filled it from `GOOGLE_API_KEY` (default `""`); otherwise
`AttributeError`. -/
def settingsGoogleApiKey (env : String → Option String) : Except PyError String :=
  if "google_api_key" ∈ settingsFieldNames then
    Except.ok ((env "GOOGLE_API_KEY").getD "")
  else
    Except.error PyError.attributeError

/-- `GeminiEmbedder.__init__` (intent_classifier.py lines 20-23): read
`settings.google_api_key`; if falsy raise
`ValueError("GOOGLE_API_KEY is required")`, else configure and return.
`DSLRetriever.__init__` lines 37-41 perform the same check. -/
def geminiEmbedderInit (env : String → Option String) : Except PyError Unit := do
  let key ← settingsGoogleApiKey env
  if key = "" then throw PyError.valueError else pure ()

/-! ## Index population (`IntentClassifier.__init__` lines 77-83,
`_initialize_collection` lines 85-112, `reset` lines 185-192) -/

/-- One record of the `intent_examples_gemini` collection. -/
structure VectorRecord where
  id : String
  embedding : List ℚ
  intentId : String
  intentNm : String
  document : String
  deriving Repr, DecidableEq

/-- `_initialize_collection` (lines 85-112) as the record list it adds:
one record per catalog example, id `f"{intent_id}_{i}"`, metadata the
owning intent's id and name, embedding computed by the embedder. -/
def populate (catalog : List IntentDefinition) (embed : String → List ℚ) :
    List VectorRecord :=
  catalog.flatMap (fun it =>
    (it.examples.enum).map (fun p =>
      ⟨it.id ++ "_" ++ toString p.1, embed p.2, it.id, it.name, p.2⟩))

/-- The population step of `IntentClassifier.__init__` (lines 77-83): the
collection obtained from `get_or_create_collection` is populated from the
catalog iff its count is zero, otherwise left untouched. -/
def initCollection (catalog : List IntentDefinition) (embed : String → List ℚ)
    (existing : List VectorRecord) : List VectorRecord :=
  if existing.length = 0 then populate catalog embed else existing

/-- `reset` (lines 185-192): delete the collection, create it empty, then
run `_initialize_collection` unconditionally from the current catalog. -/
def resetCollection (catalog : List IntentDefinition) (embed : String → List ℚ)
    (_existing : List VectorRecord) : List VectorRecord :=
  populate catalog embed

/-! ## Lemmas about the rounding model -/

theorem floor_le_roundHalfEven (x : ℚ) : ⌊x⌋ ≤ roundHalfEven x := by
  unfold roundHalfEven
  split_ifs <;> omega

theorem roundHalfEven_le_floor_add_one (x : ℚ) :
    roundHalfEven x ≤ ⌊x⌋ + 1 := by
  unfold roundHalfEven
  split_ifs <;> omega

theorem roundHalfEven_le_of_le {x : ℚ} {n : ℤ} (h : x ≤ (n : ℚ)) :
    roundHalfEven x ≤ n := by
  have hf : ⌊x⌋ ≤ n := by
    have := Int.floor_mono h
    simpa using this
  rcases lt_or_eq_of_le hf with hlt | heq
  · have := roundHalfEven_le_floor_add_one x
    omega
  · have hx : x - (⌊x⌋ : ℚ) < 1/2 := by
      have : x ≤ (⌊x⌋ : ℚ) := by rw [heq]; exact h
      linarith
    unfold roundHalfEven
    rw [if_pos hx]
    omega

theorem roundHalfEven_nonneg {x : ℚ} (h : 0 ≤ x) : 0 ≤ roundHalfEven x := by
  have : (0 : ℤ) ≤ ⌊x⌋ := Int.floor_nonneg.2 h
  have := floor_le_roundHalfEven x
  omega

theorem roundHalfEven_mono {x y : ℚ} (h : x ≤ y) :
    roundHalfEven x ≤ roundHalfEven y := by
  have hf : ⌊x⌋ ≤ ⌊y⌋ := Int.floor_mono h
  rcases lt_or_eq_of_le hf with hlt | heq
  · have h1 := roundHalfEven_le_floor_add_one x
    have h2 := floor_le_roundHalfEven y
    omega
  · have hr : x - (⌊x⌋ : ℚ) ≤ y - (⌊y⌋ : ℚ) := by
      rw [← heq]; linarith
    unfold roundHalfEven
    rw [← heq]
    split_ifs <;> first | omega | linarith

theorem pyRound3_nonneg {x : ℚ} (h : 0 ≤ x) : 0 ≤ pyRound3 x := by
  unfold pyRound3
  have : (0 : ℤ) ≤ roundHalfEven (x * 1000) :=
    roundHalfEven_nonneg (by positivity)
  have : (0 : ℚ) ≤ (roundHalfEven (x * 1000) : ℚ) := by exact_mod_cast this
  linarith

theorem pyRound3_le_one {x : ℚ} (h : x ≤ 1) : pyRound3 x ≤ 1 := by
  unfold pyRound3
  have : roundHalfEven (x * 1000) ≤ (1000 : ℤ) :=
    roundHalfEven_le_of_le (by push_cast; linarith)
  have hc : (roundHalfEven (x * 1000) : ℚ) ≤ 1000 := by exact_mod_cast this
  linarith

theorem pyRound3_mono {x y : ℚ} (h : x ≤ y) : pyRound3 x ≤ pyRound3 y := by
  unfold pyRound3
  have : roundHalfEven (x * 1000) ≤ roundHalfEven (y * 1000) :=
    roundHalfEven_mono (by linarith)
  have hc : (roundHalfEven (x * 1000) : ℚ) ≤ (roundHalfEven (y * 1000) : ℚ) := by
    exact_mod_cast this
  linarith

/-! ## Lemmas about the similarity transform -/

theorem simOf_pos {d : ℚ} (h : 0 ≤ d) : 0 < simOf d := by
  unfold simOf
  positivity

theorem simOf_le_one {d : ℚ} (h : 0 ≤ d) : simOf d ≤ 1 := by
  unfold simOf
  rw [div_le_one (by linarith)]
  linarith

theorem simOf_anti {d₁ d₂ : ℚ} (h0 : 0 ≤ d₁) (h : d₁ ≤ d₂) :
    simOf d₂ ≤ simOf d₁ := by
  unfold simOf
  exact one_div_le_one_div_of_le (by linarith) (by linarith)

/-! ## Lemmas about the voting loop -/

/-- Total similarity recorded for `id` in the score table (`0` if absent). -/
def totalOf : List (String × Score) → String → ℚ
  | [], _ => 0
  | (k, sc) :: rest, id => if k = id then sc.total else totalOf rest id

/-- Neighbor count recorded for `id` in the score table (`0` if absent). -/
def countOf : List (String × Score) → String → ℕ
  | [], _ => 0
  | (k, sc) :: rest, id => if k = id then sc.count else countOf rest id

/-- The intent ids present in the score table, in insertion order. -/
def keysOf (scores : List (String × Score)) : List String :=
  scores.map Prod.fst

theorem totalOf_updateScores (acc : List (String × Score)) (id doc : String)
    (s : ℚ) (id' : String) :
    totalOf (updateScores acc id doc s) id' =
      totalOf acc id' + (if id' = id then s else 0) := by
  induction acc with
  | nil =>
    simp only [updateScores, totalOf]
    by_cases h : id = id'
    · subst h
      simp
    · have h' : ¬ id' = id := fun he => h he.symm
      simp [h, h']
  | cons p rest ih =>
    obtain ⟨k, sc⟩ := p
    simp only [updateScores]
    by_cases hk : k = id
    · subst hk
      simp only [if_pos rfl, totalOf]
      by_cases h : k = id'
      · rw [if_pos h, if_pos h, if_pos h.symm]
      · have h' : ¬ id' = k := fun he => h he.symm
        simp [h, h']
    · simp only [if_neg hk, totalOf, ih]
      by_cases h : k = id'
      · have h' : ¬ id' = id := fun he => hk (h.trans he)
        simp [h, h']
      · simp [h]

theorem countOf_updateScores (acc : List (String × Score)) (id doc : String)
    (s : ℚ) (id' : String) :
    countOf (updateScores acc id doc s) id' =
      countOf acc id' + (if id' = id then 1 else 0) := by
  induction acc with
  | nil =>
    simp only [updateScores, countOf]
    by_cases h : id = id'
    · subst h
      simp
    · have h' : ¬ id' = id := fun he => h he.symm
      simp [h, h']
  | cons p rest ih =>
    obtain ⟨k, sc⟩ := p
    simp only [updateScores]
    by_cases hk : k = id
    · subst hk
      simp only [if_pos rfl, countOf]
      by_cases h : k = id'
      · rw [if_pos h, if_pos h, if_pos h.symm]
      · have h' : ¬ id' = k := fun he => h he.symm
        simp [h, h']
    · simp only [if_neg hk, countOf, ih]
      by_cases h : k = id'
      · have h' : ¬ id' = id := fun he => hk (h.trans he)
        simp [h, h']
      · simp [h]

theorem keysOf_updateScores (acc : List (String × Score)) (id doc : String)
    (s : ℚ) :
    keysOf (updateScores acc id doc s) =
      if id ∈ keysOf acc then keysOf acc else keysOf acc ++ [id] := by
  induction acc with
  | nil => simp [updateScores, keysOf]
  | cons p rest ih =>
    obtain ⟨k, sc⟩ := p
    by_cases hk : k = id
    · subst hk
      simp [updateScores, keysOf]
    · have hne : ¬ id = k := fun he => hk he.symm
      simp only [updateScores, if_neg hk, keysOf, List.map_cons] at *
      simp only [List.mem_cons, hne, false_or]
      by_cases hmem : id ∈ List.map Prod.fst rest <;> simp [hmem] at ih ⊢ <;>
        simpa [keysOf] using ih

theorem mem_keysOf_updateScores (acc : List (String × Score)) (id doc : String)
    (s : ℚ) (id' : String) :
    id' ∈ keysOf (updateScores acc id doc s) ↔ id' ∈ keysOf acc ∨ id' = id := by
  rw [keysOf_updateScores]
  by_cases hmem : id ∈ keysOf acc
  · simp only [if_pos hmem]
    constructor
    · exact Or.inl
    · rintro (h | rfl)
      · exact h
      · exact hmem
  · simp [if_neg hmem, List.mem_append]

theorem nodup_keysOf_updateScores (acc : List (String × Score)) (id doc : String)
    (s : ℚ) (h : (keysOf acc).Nodup) :
    (keysOf (updateScores acc id doc s)).Nodup := by
  rw [keysOf_updateScores]
  by_cases hmem : id ∈ keysOf acc
  · simpa [hmem] using h
  · simp only [if_neg hmem]
    rw [List.nodup_append]
    refine ⟨h, List.nodup_singleton id, ?_⟩
    intro a ha hb
    simp only [List.mem_singleton] at hb
    subst hb
    exact hmem ha

theorem totalOf_buildScores (ns : List Neighbor) (ds : List ℚ)
    (acc : List (String × Score)) (id : String) :
    totalOf (buildScores ns ds acc) id =
      totalOf acc id + groupTotal (pairDists ns ds) id := by
  induction ns generalizing ds acc with
  | nil => simp [buildScores, pairDists, groupTotal]
  | cons n ns ih =>
    simp only [buildScores, pairDists, groupTotal]
    rw [ih, totalOf_updateScores]
    by_cases h : n.intentId = id
    · simp [h]
      ring
    · have h' : ¬ id = n.intentId := fun he => h he.symm
      simp [h, h']

theorem countOf_buildScores (ns : List Neighbor) (ds : List ℚ)
    (acc : List (String × Score)) (id : String) :
    countOf (buildScores ns ds acc) id =
      countOf acc id + groupCount (pairDists ns ds) id := by
  induction ns generalizing ds acc with
  | nil => simp [buildScores, pairDists, groupCount]
  | cons n ns ih =>
    simp only [buildScores, pairDists, groupCount]
    rw [ih, countOf_updateScores]
    by_cases h : n.intentId = id
    · simp [h]
      ring
    · have h' : ¬ id = n.intentId := fun he => h he.symm
      simp [h, h']

theorem mem_keysOf_buildScores (ns : List Neighbor) (ds : List ℚ)
    (acc : List (String × Score)) (id : String) :
    id ∈ keysOf (buildScores ns ds acc) ↔
      id ∈ keysOf acc ∨ id ∈ ns.map Neighbor.intentId := by
  induction ns generalizing ds acc with
  | nil => simp [buildScores]
  | cons n ns ih =>
    simp only [buildScores, List.map_cons, List.mem_cons]
    rw [ih, mem_keysOf_updateScores]
    tauto

theorem nodup_keysOf_buildScores (ns : List Neighbor) (ds : List ℚ)
    (acc : List (String × Score)) (h : (keysOf acc).Nodup) :
    (keysOf (buildScores ns ds acc)).Nodup := by
  induction ns generalizing ds acc with
  | nil => simpa [buildScores]
  | cons n ns ih =>
    simp only [buildScores]
    exact ih _ _ (nodup_keysOf_updateScores _ _ _ _ h)

theorem totalOf_of_mem {scores : List (String × Score)} {k : String} {sc : Score}
    (hnd : (keysOf scores).Nodup) (hmem : (k, sc) ∈ scores) :
    totalOf scores k = sc.total ∧ countOf scores k = sc.count := by
  induction scores with
  | nil => cases hmem
  | cons p rest ih =>
    obtain ⟨k', sc'⟩ := p
    simp only [keysOf, List.map_cons, List.nodup_cons] at hnd
    rcases List.mem_cons.1 hmem with heq | htail
    · injection heq with h1 h2
      subst h1
      subst h2
      simp [totalOf, countOf]
    · have hk : ¬ k' = k := by
        intro he
        subst he
        exact hnd.1 (List.mem_map.2 ⟨(k', sc), htail, rfl⟩)
      simp only [totalOf, countOf, if_neg hk]
      exact ih hnd.2 htail

/-! ## Lemmas about the winner selection -/

theorem maxFrom_mem (x : String × Score) (l : List (String × Score)) :
    maxFrom x l ∈ x :: l := by
  induction l generalizing x with
  | nil => simp [maxFrom]
  | cons y ys ih =>
    simp only [maxFrom]
    rcases List.mem_cons.1 (ih (if x.2.total < y.2.total then y else x)) with h | h
    · rw [h]
      by_cases hc : x.2.total < y.2.total
      · simp [hc]
      · simp [hc]
    · exact List.mem_cons.2 (Or.inr (List.mem_cons.2 (Or.inr h)))

theorem le_maxFrom (x : String × Score) (l : List (String × Score)) :
    ∀ y ∈ x :: l, y.2.total ≤ (maxFrom x l).2.total := by
  induction l generalizing x with
  | nil =>
    intro y hy
    rcases List.mem_cons.1 hy with rfl | h
    · simp [maxFrom]
    · cases h
  | cons z zs ih =>
    intro y hy
    simp only [maxFrom]
    have hbase : ∀ w ∈ (if x.2.total < z.2.total then z else x) :: zs,
        w.2.total ≤ (maxFrom (if x.2.total < z.2.total then z else x) zs).2.total :=
      ih _
    have hx : x.2.total ≤ (if x.2.total < z.2.total then z else x).2.total := by
      by_cases hc : x.2.total < z.2.total
      · rw [if_pos hc]
        exact le_of_lt hc
      · rw [if_neg hc]
    have hz : z.2.total ≤ (if x.2.total < z.2.total then z else x).2.total := by
      by_cases hc : x.2.total < z.2.total
      · rw [if_pos hc]
      · rw [if_neg hc]
        exact le_of_not_lt hc
    have hhead := hbase _ (List.mem_cons_self _ _)
    rcases List.mem_cons.1 hy with rfl | hy'
    · exact le_trans hx hhead
    · rcases List.mem_cons.1 hy' with rfl | hy''
      · exact le_trans hz hhead
      · exact hbase _ (List.mem_cons.2 (Or.inr hy''))

/-! ## The classification core lemma -/

/-- Anatomy of `classify` on a non-empty neighbor list: it returns some
winner `(k, sc)` of the score table whose recorded total and count are the
group total similarity and group size, the winner's intent id comes from a
neighbor, its group total is maximal, and the confidence is the rounded
group mean. -/
theorem classify_core (ns : List Neighbor) (ds : List ℚ) (hne : ns ≠ []) :
    ∃ k sc,
      classify ns ds =
        ⟨k, intentName k, pyRound3 (sc.total / (sc.count : ℚ)), sc.examples⟩ ∧
      (k, sc) ∈ buildScores ns ds [] ∧
      k ∈ ns.map Neighbor.intentId ∧
      sc.total = groupTotal (pairDists ns ds) k ∧
      sc.count = groupCount (pairDists ns ds) k ∧
      (∀ id ∈ ns.map Neighbor.intentId,
        groupTotal (pairDists ns ds) id ≤ groupTotal (pairDists ns ds) k) := by
  cases ns with
  | nil => exact absurd rfl hne
  | cons n ns' =>
    have hnd : (keysOf (buildScores (n :: ns') ds [])).Nodup :=
      nodup_keysOf_buildScores _ _ _ (by simp [keysOf])
    cases hsc : buildScores (n :: ns') ds [] with
    | nil =>
      exfalso
      have hin : n.intentId ∈ keysOf (buildScores (n :: ns') ds []) := by
        rw [mem_keysOf_buildScores]
        right
        simp
      rw [hsc] at hin
      simp [keysOf] at hin
    | cons x xs =>
      rcases hmf : maxFrom x xs with ⟨k, sc⟩
      refine ⟨k, sc, ?_, ?_, ?_, ?_, ?_, ?_⟩
      · simp only [classify, pickBest, hsc, hmf]
      · exact hmf ▸ maxFrom_mem x xs
      · have hmem : (k, sc) ∈ buildScores (n :: ns') ds [] := by
          rw [hsc]
          exact hmf ▸ maxFrom_mem x xs
        have hk : k ∈ keysOf (buildScores (n :: ns') ds []) :=
          List.mem_map.2 ⟨(k, sc), hmem, rfl⟩
        rcases (mem_keysOf_buildScores _ _ _ _).1 hk with h | h
        · simp [keysOf] at h
        · exact h
      · have hmem : (k, sc) ∈ buildScores (n :: ns') ds [] := by
          rw [hsc]
          exact hmf ▸ maxFrom_mem x xs
        have := (totalOf_of_mem hnd hmem).1
        rw [totalOf_buildScores] at this
        simpa [totalOf] using this.symm
      · have hmem : (k, sc) ∈ buildScores (n :: ns') ds [] := by
          rw [hsc]
          exact hmf ▸ maxFrom_mem x xs
        have := (totalOf_of_mem hnd hmem).2
        rw [countOf_buildScores] at this
        simpa [countOf] using this.symm
      · intro id hid
        have hidk : id ∈ keysOf (buildScores (n :: ns') ds []) := by
          rw [mem_keysOf_buildScores]
          exact Or.inr hid
        obtain ⟨p, hp, hfst⟩ := List.mem_map.1 hidk
        obtain ⟨pk, psc⟩ := p
        simp only at hfst
        subst hfst
        have h1 : totalOf (buildScores (n :: ns') ds []) pk = psc.total :=
          (totalOf_of_mem hnd hp).1
        rw [totalOf_buildScores] at h1
        simp only [totalOf, zero_add] at h1
        have h2 : totalOf (buildScores (n :: ns') ds []) k = sc.total := by
          refine (totalOf_of_mem hnd ?_).1
          rw [hsc]
          exact hmf ▸ maxFrom_mem x xs
        rw [totalOf_buildScores] at h2
        simp only [totalOf, zero_add] at h2
        have hle : psc.total ≤ sc.total := by
          have hp' : (pk, psc) ∈ x :: xs := by
            rw [← hsc]
            exact hp
          have := le_maxFrom x xs (pk, psc) hp'
          rw [hmf] at this
          exact this
        rw [h1, h2]
        exact hle

/-! ## Group-level bounds -/

theorem pairDists_snd_nonneg {α : Type} (ns : List α) (ds : List ℚ)
    (hd : ∀ d ∈ ds, 0 ≤ d) : ∀ p ∈ pairDists ns ds, 0 ≤ p.2 := by
  induction ns generalizing ds with
  | nil =>
    intro p hp
    simp [pairDists] at hp
  | cons n ns ih =>
    intro p hp
    simp only [pairDists, List.mem_cons] at hp
    rcases hp with rfl | hp
    · cases ds with
      | nil => norm_num
      | cons d ds' => simpa using hd d (by simp)
    · exact ih ds.tail (fun d hdm => hd d (List.mem_of_mem_tail hdm)) p hp

theorem groupCount_pos (ns : List Neighbor) (ds : List ℚ) (id : String)
    (h : id ∈ ns.map Neighbor.intentId) :
    0 < groupCount (pairDists ns ds) id := by
  induction ns generalizing ds with
  | nil => simp at h
  | cons n ns ih =>
    simp only [List.map_cons, List.mem_cons] at h
    rcases h with h | h
    · have hc : n.intentId = id := h.symm
      simp only [pairDists, groupCount, if_pos hc]
      omega
    · simp only [pairDists, groupCount]
      have := ih ds.tail h
      split_ifs <;> omega

theorem groupTotal_nonneg (pairs : List (Neighbor × ℚ)) (id : String)
    (h : ∀ p ∈ pairs, 0 ≤ p.2) : 0 ≤ groupTotal pairs id := by
  induction pairs with
  | nil => simp [groupTotal]
  | cons p ps ih =>
    obtain ⟨n, d⟩ := p
    have hd : 0 ≤ d := h (n, d) (List.mem_cons_self _ _)
    have hrest := ih (fun q hq => h q (List.mem_cons.2 (Or.inr hq)))
    simp only [groupTotal]
    split_ifs with hc
    · have := simOf_pos hd
      linarith
    · linarith

theorem groupTotal_le_groupCount (pairs : List (Neighbor × ℚ)) (id : String)
    (h : ∀ p ∈ pairs, 0 ≤ p.2) :
    groupTotal pairs id ≤ (groupCount pairs id : ℚ) := by
  induction pairs with
  | nil => simp [groupTotal, groupCount]
  | cons p ps ih =>
    obtain ⟨n, d⟩ := p
    have hd : 0 ≤ d := h (n, d) (List.mem_cons_self _ _)
    have hrest := ih (fun q hq => h q (List.mem_cons.2 (Or.inr hq)))
    simp only [groupTotal, groupCount]
    push_cast
    split_ifs with hc
    · have := simOf_le_one hd
      linarith
    · linarith

theorem groupTotal_pos (pairs : List (Neighbor × ℚ)) (id : String)
    (h : ∀ p ∈ pairs, 0 ≤ p.2) (hc : 0 < groupCount pairs id) :
    0 < groupTotal pairs id := by
  induction pairs with
  | nil => simp [groupCount] at hc
  | cons p ps ih =>
    obtain ⟨n, d⟩ := p
    have hd : 0 ≤ d := h (n, d) (List.mem_cons_self _ _)
    have hrest : ∀ q ∈ ps, 0 ≤ q.2 := fun q hq => h q (List.mem_cons.2 (Or.inr hq))
    simp only [groupCount] at hc
    simp only [groupTotal]
    split_ifs at hc ⊢ with hcc
    · have h1 := simOf_pos hd
      have h2 := groupTotal_nonneg ps id hrest
      linarith
    · have hc' : 0 < groupCount ps id := by omega
      have := ih hrest hc'
      linarith

/-! ## Claim theorems: intent classifier -/

/-- C1: whenever the intent-index query returns a non-empty neighbor list,
`classify` returns a winner whose intent id belongs to some neighbor, whose
group total similarity (`Σ 1/(1+d)` over the group's neighbors) is greatest
among all intent groups, and whose confidence is the winning group's total
similarity divided by its neighbor count, rounded to 3 decimal places. -/
theorem claim_c1_classify_votes (ns : List Neighbor) (ds : List ℚ)
    (hne : ns ≠ []) :
    (∃ nb ∈ ns, nb.intentId = (classify ns ds).intentId) ∧
    (∀ id ∈ ns.map Neighbor.intentId,
      groupTotal (pairDists ns ds) id ≤
        groupTotal (pairDists ns ds) ((classify ns ds).intentId)) ∧
    (classify ns ds).confidence =
      pyRound3 (groupTotal (pairDists ns ds) ((classify ns ds).intentId) /
        (groupCount (pairDists ns ds) ((classify ns ds).intentId) : ℚ)) := by
  obtain ⟨k, sc, hcl, hmem, hk, htot, hcnt, hmax⟩ := classify_core ns ds hne
  have hid : (classify ns ds).intentId = k := by rw [hcl]
  refine ⟨?_, ?_, ?_⟩
  · obtain ⟨nb, hnb, hnbid⟩ := List.mem_map.1 hk
    refine ⟨nb, hnb, ?_⟩
    rw [hid]
    exact hnbid
  · intro id hidm
    rw [hid]
    exact hmax id hidm
  · rw [hid, hcl]
    show pyRound3 (sc.total / (sc.count : ℚ)) = _
    rw [htot, hcnt]

/-- C1 witness: the theorem applied to a concrete one-neighbor query. -/
theorem claim_c1_witness :
    ([(⟨"create_event", "我想建立一個新賽事"⟩ : Neighbor)] ≠ []) ∧
    ((∃ nb ∈ [(⟨"create_event", "我想建立一個新賽事"⟩ : Neighbor)],
        nb.intentId =
          (classify [⟨"create_event", "我想建立一個新賽事"⟩] [0]).intentId) ∧
     (∀ id ∈ [(⟨"create_event", "我想建立一個新賽事"⟩ : Neighbor)].map
          Neighbor.intentId,
        groupTotal (pairDists [⟨"create_event", "我想建立一個新賽事"⟩] [0]) id ≤
          groupTotal (pairDists [⟨"create_event", "我想建立一個新賽事"⟩] [0])
            ((classify [⟨"create_event", "我想建立一個新賽事"⟩] [0]).intentId)) ∧
     (classify [⟨"create_event", "我想建立一個新賽事"⟩] [0]).confidence =
       pyRound3
         (groupTotal (pairDists [⟨"create_event", "我想建立一個新賽事"⟩] [0])
            ((classify [⟨"create_event", "我想建立一個新賽事"⟩] [0]).intentId) /
          (groupCount (pairDists [⟨"create_event", "我想建立一個新賽事"⟩] [0])
            ((classify [⟨"create_event", "我想建立一個新賽事"⟩] [0]).intentId) : ℚ))) :=
  ⟨by simp, claim_c1_classify_votes _ _ (by simp)⟩

/-- C3: a query returning zero neighbors yields exactly the default result:
intent id `"general"` (display name `"一般對話"`), confidence exactly `0`,
and an empty supporting-examples list — whatever the distance list says. -/
theorem claim_c3_empty_default (ds : List ℚ) :
    classify [] ds = ⟨"general", "一般對話", 0, []⟩ := rfl

/-- C4 counterexample: one neighbor at distance `9999 ≥ 0` has similarity
`1/10000`, so the winning group's mean is `0.0001`, which rounds to `0.0`
at 3 decimal places: the returned confidence is exactly `0` even though a
neighbor was found, contradicting the claim that confidence is strictly
positive whenever the neighbor list is non-empty. -/
theorem claim_c4_counterexample :
    (classify [⟨"update_event", "修改報名費"⟩] [9999]).confidence = 0 := by
  have h10 : ⌊(1/10000 : ℚ) * 1000⌋ = 0 := by
    rw [Int.floor_eq_zero_iff]
    simp only [Set.mem_Ico]
    constructor <;> norm_num
  have hr : pyRound3 ((1/10000 : ℚ)) = 0 := by
    unfold pyRound3 roundHalfEven
    rw [h10]
    norm_num
  simp only [classify, buildScores, updateScores, List.headD_cons, List.tail_cons,
    pickBest, maxFrom]
  norm_num [simOf]
  convert hr using 2

/-- C4 amended: with at least one neighbor and nonnegative distances the
returned confidence lies in `[0, 1]` and the winning group's mean similarity
(the confidence before rounding) lies strictly in `(0, 1]`; rounding to 3
decimal places can send the returned value to exactly `0`, so confidence `0`
is not exclusive to the zero-neighbor case. -/
theorem claim_c4_confidence_bounds (ns : List Neighbor) (ds : List ℚ)
    (hne : ns ≠ []) (hd : ∀ d ∈ ds, 0 ≤ d) :
    0 ≤ (classify ns ds).confidence ∧ (classify ns ds).confidence ≤ 1 ∧
    0 < groupTotal (pairDists ns ds) ((classify ns ds).intentId) /
        (groupCount (pairDists ns ds) ((classify ns ds).intentId) : ℚ) ∧
    groupTotal (pairDists ns ds) ((classify ns ds).intentId) /
        (groupCount (pairDists ns ds) ((classify ns ds).intentId) : ℚ) ≤ 1 := by
  obtain ⟨k, sc, hcl, hmem, hk, htot, hcnt, hmax⟩ := classify_core ns ds hne
  have hid : (classify ns ds).intentId = k := by rw [hcl]
  have hpairs := pairDists_snd_nonneg ns ds hd
  have hcpos : 0 < groupCount (pairDists ns ds) k := groupCount_pos ns ds k hk
  have htpos : 0 < groupTotal (pairDists ns ds) k :=
    groupTotal_pos _ _ hpairs hcpos
  have htle : groupTotal (pairDists ns ds) k ≤
      (groupCount (pairDists ns ds) k : ℚ) :=
    groupTotal_le_groupCount _ _ hpairs
  have hcq : (0 : ℚ) < (groupCount (pairDists ns ds) k : ℚ) := by
    exact_mod_cast hcpos
  have hmean_pos : 0 < groupTotal (pairDists ns ds) k /
      (groupCount (pairDists ns ds) k : ℚ) := div_pos htpos hcq
  have hmean_le : groupTotal (pairDists ns ds) k /
      (groupCount (pairDists ns ds) k : ℚ) ≤ 1 := (div_le_one hcq).2 htle
  have hconf : (classify ns ds).confidence =
      pyRound3 (groupTotal (pairDists ns ds) k /
        (groupCount (pairDists ns ds) k : ℚ)) := by
    rw [hcl]
    show pyRound3 (sc.total / (sc.count : ℚ)) = _
    rw [htot, hcnt]
  rw [hid, hconf]
  exact ⟨pyRound3_nonneg (le_of_lt hmean_pos), pyRound3_le_one hmean_le,
    hmean_pos, hmean_le⟩

/-- C4 witness: the amended theorem applied to a concrete one-neighbor
query at distance `0`. -/
theorem claim_c4_witness :
    ([(⟨"create_event", "我想建立一個新賽事"⟩ : Neighbor)] ≠ []) ∧
    (∀ d ∈ [(0 : ℚ)], 0 ≤ d) ∧
    (0 ≤ (classify [⟨"create_event", "我想建立一個新賽事"⟩] [0]).confidence ∧
     (classify [⟨"create_event", "我想建立一個新賽事"⟩] [0]).confidence ≤ 1 ∧
     0 < groupTotal (pairDists [⟨"create_event", "我想建立一個新賽事"⟩] [0])
          ((classify [⟨"create_event", "我想建立一個新賽事"⟩] [0]).intentId) /
         (groupCount (pairDists [⟨"create_event", "我想建立一個新賽事"⟩] [0])
          ((classify [⟨"create_event", "我想建立一個新賽事"⟩] [0]).intentId) : ℚ) ∧
     groupTotal (pairDists [⟨"create_event", "我想建立一個新賽事"⟩] [0])
          ((classify [⟨"create_event", "我想建立一個新賽事"⟩] [0]).intentId) /
         (groupCount (pairDists [⟨"create_event", "我想建立一個新賽事"⟩] [0])
          ((classify [⟨"create_event", "我想建立一個新賽事"⟩] [0]).intentId) : ℚ) ≤ 1) :=
  ⟨by simp, by simp,
    claim_c4_confidence_bounds _ _ (by simp) (by
      intro d hdm
      simp only [List.mem_singleton] at hdm
      simp [hdm])⟩

/-! ## Lemmas about the retriever loop -/

theorem searchLoop_length_le (loader : Loader) (hs : List HitMeta)
    (ds : List ℚ) : (searchLoop loader hs ds).length ≤ hs.length := by
  induction hs generalizing ds with
  | nil => simp [searchLoop]
  | cons h hs ih =>
    simp only [searchLoop]
    cases hl : loader h.module h.varName with
    | none => exact le_trans (ih ds.tail) (by simp)
    | some c =>
      by_cases hc : c = ""
      · simp only [if_pos hc]
        exact le_trans (ih ds.tail) (by simp)
      · simp only [if_neg hc, List.length_cons]
        exact Nat.succ_le_succ (ih ds.tail)

theorem searchLoop_mem (loader : Loader) (hs : List HitMeta) (ds : List ℚ)
    (r : SearchResult) (hr : r ∈ searchLoop loader hs ds) :
    ∃ p ∈ pairDists hs ds, loader p.1.module p.1.varName = some r.content ∧
      r.content ≠ "" ∧ r.similarity = pyRound3 (simOf p.2) := by
  induction hs generalizing ds with
  | nil => simp [searchLoop] at hr
  | cons h hs ih =>
    simp only [searchLoop] at hr
    cases hl : loader h.module h.varName with
    | none =>
      rw [hl] at hr
      obtain ⟨p, hp, h1⟩ := ih ds.tail hr
      exact ⟨p, List.mem_cons.2 (Or.inr hp), h1⟩
    | some c =>
      simp only [hl] at hr
      by_cases hc : c = ""
      · rw [if_pos hc] at hr
        obtain ⟨p, hp, h1⟩ := ih ds.tail hr
        exact ⟨p, List.mem_cons.2 (Or.inr hp), h1⟩
      · rw [if_neg hc] at hr
        rcases List.mem_cons.1 hr with rfl | hr'
        · exact ⟨(h, ds.headD 1), List.mem_cons.2 (Or.inl rfl), hl, hc, rfl⟩
        · obtain ⟨p, hp, h1⟩ := ih ds.tail hr'
          exact ⟨p, List.mem_cons.2 (Or.inr hp), h1⟩

theorem searchLoop_sorted (loader : Loader) (hs : List HitMeta) (ds : List ℚ)
    (hd : ∀ p ∈ pairDists hs ds, 0 ≤ p.2)
    (hsort : ((pairDists hs ds).map Prod.snd).Pairwise (· ≤ ·)) :
    (searchLoop loader hs ds).Pairwise
      (fun a b => b.similarity ≤ a.similarity) := by
  induction hs generalizing ds with
  | nil => simp [searchLoop]
  | cons h hs ih =>
    have hd' : ∀ p ∈ pairDists hs ds.tail, 0 ≤ p.2 :=
      fun p hp => hd p (List.mem_cons.2 (Or.inr hp))
    have hd0 : 0 ≤ ds.headD 1 := by
      have := hd (h, ds.headD 1) (by simp [pairDists])
      simpa using this
    simp only [pairDists, List.map_cons, List.pairwise_cons] at hsort
    obtain ⟨hhead, htail⟩ := hsort
    simp only [searchLoop]
    cases hl : loader h.module h.varName with
    | none => exact ih ds.tail hd' htail
    | some c =>
      by_cases hc : c = ""
      · simp only [if_pos hc]
        exact ih ds.tail hd' htail
      · simp only [if_neg hc]
        refine List.Pairwise.cons ?_ (ih ds.tail hd' htail)
        intro r hr
        obtain ⟨p, hp, hload, hcne, hsim⟩ := searchLoop_mem loader hs ds.tail r hr
        show r.similarity ≤ pyRound3 (simOf (ds.headD 1))
        rw [hsim]
        apply pyRound3_mono
        apply simOf_anti hd0
        exact hhead p.2 (List.mem_map.2 ⟨p, hp, rfl⟩)

theorem pairDists_map_snd {α : Type} (ns : List α) (ds : List ℚ)
    (hlen : ds.length = ns.length) : (pairDists ns ds).map Prod.snd = ds := by
  induction ns generalizing ds with
  | nil =>
    cases ds with
    | nil => simp [pairDists]
    | cons d ds' => simp at hlen
  | cons n ns ih =>
    cases ds with
    | nil => simp at hlen
    | cons d ds' =>
      simp only [pairDists, List.map_cons, List.headD_cons, List.tail_cons]
      rw [ih ds' (by simpa using hlen)]

theorem pairDists_fst_mem {α : Type} {ns : List α} {ds : List ℚ}
    {p : α × ℚ} (hp : p ∈ pairDists ns ds) : p.1 ∈ ns := by
  induction ns generalizing ds with
  | nil => simp [pairDists] at hp
  | cons n ns ih =>
    simp only [pairDists, List.mem_cons] at hp
    rcases hp with rfl | hp
    · simp
    · exact List.mem_cons.2 (Or.inr (ih hp))

/-! ## Claim theorems: knowledge retriever -/

/-- C5: `search` is a total function of the query result (content-resolution
failures are absorbed hit by hit, never propagated), and given an index
answer of at most `topK` neighbors with nonnegative distances in ascending
order, it returns at most `topK` results, each carrying content actually
resolved by the loader, in descending similarity order. -/
theorem claim_c5_search_degrades (loader : Loader) (hits : List HitMeta)
    (ds : List ℚ) (k : ℕ) (hk : hits.length ≤ k)
    (hlen : ds.length = hits.length) (hsort : ds.Pairwise (· ≤ ·))
    (hd : ∀ d ∈ ds, 0 ≤ d) :
    (search loader hits ds).length ≤ k ∧
    (search loader hits ds).Pairwise
      (fun a b => b.similarity ≤ a.similarity) ∧
    (∀ r ∈ search loader hits ds, ∃ h ∈ hits,
      loader h.module h.varName = some r.content) := by
  refine ⟨le_trans (searchLoop_length_le loader hits ds) hk, ?_, ?_⟩
  · apply searchLoop_sorted loader hits ds (pairDists_snd_nonneg hits ds hd)
    rw [pairDists_map_snd hits ds hlen]
    exact hsort
  · intro r hr
    obtain ⟨p, hp, hload, hcne, hsim⟩ := searchLoop_mem loader hits ds r hr
    exact ⟨p.1, pairDists_fst_mem hp, hload⟩

/-- C5 witness: the theorem applied to a concrete single-hit query with a
loader that resolves it. -/
theorem claim_c5_witness :
    ([(⟨"標題", "agent.mod", "SPEC"⟩ : HitMeta)].length ≤ 1) ∧
    ([(0 : ℚ)].length = [(⟨"標題", "agent.mod", "SPEC"⟩ : HitMeta)].length) ∧
    ([(0 : ℚ)].Pairwise (· ≤ ·)) ∧
    (∀ d ∈ [(0 : ℚ)], 0 ≤ d) ∧
    ((search (fun _ _ => some "內容") [⟨"標題", "agent.mod", "SPEC"⟩] [0]).length ≤ 1 ∧
     (search (fun _ _ => some "內容") [⟨"標題", "agent.mod", "SPEC"⟩] [0]).Pairwise
       (fun a b => b.similarity ≤ a.similarity) ∧
     (∀ r ∈ search (fun _ _ => some "內容") [⟨"標題", "agent.mod", "SPEC"⟩] [0],
       ∃ h ∈ [(⟨"標題", "agent.mod", "SPEC"⟩ : HitMeta)],
         (fun _ _ => some "內容" : Loader) h.module h.varName = some r.content)) :=
  ⟨by simp, by simp, by simp, by simp,
    claim_c5_search_degrades _ _ _ 1 (by simp) (by simp) (by simp) (by
      intro d hdm
      simp only [List.mem_singleton] at hdm
      simp [hdm])⟩

/-- C10: every result of `search` carries a non-empty content string, and a
locator that resolves to the empty string is treated exactly as a failed
resolution: `search` under the original loader coincides with `search` under
the loader whose empty-string results are replaced by absence. -/
theorem claim_c10_truthiness (loader : Loader) (hits : List HitMeta)
    (ds : List ℚ) :
    search loader hits ds = search (truthyLoader loader) hits ds ∧
    (search loader hits ds).countP (fun r => r.content == "") = 0 := by
  constructor
  · show searchLoop loader hits ds = searchLoop (truthyLoader loader) hits ds
    induction hits generalizing ds with
    | nil => rfl
    | cons h hs ih =>
      simp only [searchLoop]
      cases hl : loader h.module h.varName with
      | none => simp [truthyLoader, hl, ih ds.tail]
      | some c =>
        by_cases hc : c = ""
        · simp [truthyLoader, hl, hc, ih ds.tail]
        · simp [truthyLoader, hl, hc, ih ds.tail]
  · rw [List.countP_eq_zero]
    intro r hr
    obtain ⟨p, hp, hload, hcne, hsim⟩ := searchLoop_mem loader hits ds r hr
    simp [hcne]

/-! ## Claim theorems: prompt retriever -/

/-- C6: for every message, composing for `"create_event"` selects the entire
fixed five-fragment DSL knowledge set (overview, pricing rules, validation
rules, form schema, conditions), independently of the message, and the
composed sequence is exactly base, intent fragment, then that whole set. -/
theorem claim_c6_create_event_full_set (message : String) :
    getDslSpecs "create_event" message = ALL_DSL_SPECS ∧
    composeFragments "create_event" message =
      [Fragment.base, Fragment.createEvent, Fragment.dslOverview,
       Fragment.pricingRules, Fragment.validationRules, Fragment.formSchema,
       Fragment.conditions] :=
  ⟨rfl, rfl⟩

/-- C7: composing for `"update_event"` with message `"修改報名費"` yields the
pricing-rules fragment and the conditions fragment but not the form-schema
fragment: the message contains the pricing keyword `"報名費"` and no form
keyword under case-folded substring matching. -/
theorem claim_c7_update_pricing_message :
    Fragment.pricingRules ∈ composeFragments "update_event" "修改報名費" ∧
    Fragment.conditions ∈ composeFragments "update_event" "修改報名費" ∧
    (composeFragments "update_event" "修改報名費").contains
      Fragment.formSchema = false := by
  decide

/-- C9: an intent id absent from the static `INTENT_PROMPTS` table
contributes no intent fragment and (being neither `"create_event"` nor
`"update_event"`, which are in the table) no knowledge fragments either, so
`compose` succeeds and the output is exactly the base persona fragment. -/
theorem claim_c9_unknown_intent (intentId message : String)
    (h : INTENT_PROMPTS.lookup intentId = none) :
    composeFragments intentId message = [Fragment.base] := by
  have hc : intentId ≠ "create_event" := by
    intro he
    subst he
    exact absurd h (by decide)
  have hu : intentId ≠ "update_event" := by
    intro he
    subst he
    exact absurd h (by decide)
  simp [composeFragments, h, getDslSpecs, hc, hu]

/-- C9 witness: the theorem applied to a concrete unknown intent id. -/
theorem claim_c9_witness :
    INTENT_PROMPTS.lookup "unknown_intent" = none ∧
    composeFragments "unknown_intent" "hello" = [Fragment.base] :=
  ⟨by decide, claim_c9_unknown_intent _ _ (by decide)⟩

/-! ## Claim theorems: configuration -/

/-- C2: the credential check cannot behave as specified: because the pydantic
`Settings` model declares no `google_api_key` field, reading
`settings.google_api_key` in `GeminiEmbedder.__init__` (and in
`DSLRetriever.__init__`) raises `AttributeError` for every environment —
including one where `GOOGLE_API_KEY` is present — so construction never
succeeds and never reaches the documented `ValueError` either. -/
theorem claim_c2_construction_always_raises (env : String → Option String) :
    geminiEmbedderInit env = Except.error PyError.attributeError := rfl

/-! ## Claim theorems: index population -/

theorem populate_documents (catalog : List IntentDefinition)
    (embed : String → List ℚ) :
    (populate catalog embed).map (fun r => r.document) =
      catalog.flatMap (fun it => it.examples) := by
  induction catalog with
  | nil => rfl
  | cons it rest ih =>
    simp only [populate, List.flatMap_cons, List.map_append] at ih ⊢
    rw [ih, List.map_map]
    congr 1
    have h2 : ((fun r : VectorRecord => r.document) ∘ fun p : ℕ × String =>
        (⟨it.id ++ "_" ++ toString p.1, embed p.2, it.id, it.name, p.2⟩ :
          VectorRecord)) = Prod.snd := rfl
    rw [h2, List.enum_map_snd]

/-- C8: population is lazy and idempotent — a non-empty collection is left
untouched by construction, an empty one is populated from the catalog,
re-running construction changes nothing — and `reset` discards whatever the
collection held and fully repopulates from the current catalog, whose
documents are exactly all catalog examples in order. -/
theorem claim_c8_lazy_idempotent_reset (catalog : List IntentDefinition)
    (embed : String → List ℚ) (existing : List VectorRecord)
    (hne : existing ≠ []) :
    initCollection catalog embed existing = existing ∧
    initCollection catalog embed [] = populate catalog embed ∧
    initCollection catalog embed (initCollection catalog embed existing) =
      initCollection catalog embed existing ∧
    resetCollection catalog embed existing = populate catalog embed ∧
    (populate catalog embed).map (fun r => r.document) =
      catalog.flatMap (fun it => it.examples) := by
  have hlen : existing.length ≠ 0 := by
    intro h
    exact hne (List.length_eq_zero.1 h)
  refine ⟨?_, ?_, ?_, rfl, populate_documents catalog embed⟩
  · simp [initCollection, hlen]
  · simp [initCollection]
  · simp [initCollection, hlen]

/-- C8 witness: the theorem applied to the real catalog, a trivial embedder
and a concrete non-empty pre-existing collection. -/
theorem claim_c8_witness :
    ([(⟨"x_0", [], "x", "X", "doc"⟩ : VectorRecord)] ≠ []) ∧
    (initCollection INTENT_DEFINITIONS (fun _ => [])
        [⟨"x_0", [], "x", "X", "doc"⟩] = [⟨"x_0", [], "x", "X", "doc"⟩] ∧
     initCollection INTENT_DEFINITIONS (fun _ => []) [] =
       populate INTENT_DEFINITIONS (fun _ => []) ∧
     initCollection INTENT_DEFINITIONS (fun _ => [])
        (initCollection INTENT_DEFINITIONS (fun _ => [])
          [⟨"x_0", [], "x", "X", "doc"⟩]) =
       initCollection INTENT_DEFINITIONS (fun _ => [])
          [⟨"x_0", [], "x", "X", "doc"⟩] ∧
     resetCollection INTENT_DEFINITIONS (fun _ => [])
        [⟨"x_0", [], "x", "X", "doc"⟩] =
       populate INTENT_DEFINITIONS (fun _ => []) ∧
     (populate INTENT_DEFINITIONS (fun _ => [])).map (fun r => r.document) =
       INTENT_DEFINITIONS.flatMap (fun it => it.examples)) :=
  ⟨by simp, claim_c8_lazy_idempotent_reset _ _ _ (by simp)⟩

end RulesEngine
